import Mathlib

/-!
Shallow embedding of github-searcher.py (ipa-lab/github-searcher) and proofs
about its stratified-sampling, persistence, resume and rate-limit logic.
Line numbers in comments refer to src/github-searcher.py.
-/

namespace GithubSearcher

/-- Command-line arguments after parsing (lines 15-49). The GitHub token is
modelled as a plain string, with the empty string standing for an absent
token (Python treats both None and the empty string as falsy at line 61). -/
structure Args where
  minSize : Int
  maxSize : Int
  stratumSize : Int
  throttle : Bool
  githubToken : String
deriving DecidableEq

/-- Only files smaller than 384 KB are searchable via the GitHub API (line 31). -/
def MAX_FILE_SIZE : Int := 393216

/-- Argument validation (lines 51-62), checks performed in source order; the
first failing check terminates the process with the given message. -/
def validateArgs (a : Args) : Except String Unit :=
  if a.minSize < 1 then .error "min-size must be positive"
  else if a.minSize ≥ a.maxSize then .error "min-size must be less than or equal to max-size"
  else if a.maxSize < 1 then .error "max-size must be positive"
  else if a.maxSize > MAX_FILE_SIZE then .error "max-size must be less than or equal to 393216"
  else if a.stratumSize < 1 then .error "stratum-size must be positive"
  else if a.githubToken = "" then .error "missing environment variable GITHUB_TOKEN"
  else .ok ()

/-- Row of the repo table (schema lines 244-253); repo_id is the PRIMARY KEY.
The fork column stores int(repo.fork) as the source does at line 280. -/
structure RepoRow where
  repoId : Int
  name : String
  fullName : String
  description : Option String
  url : String
  fork : Int
  ownerId : Int
  ownerLogin : String
deriving DecidableEq

/-- Row of the file table (schema lines 254-264). The file_id PRIMARY KEY is
an auto-assigned rowid, modelled implicitly by list position; the identity
constraint is UNIQUE(path, repo_id). -/
structure FileRow where
  name : String
  path : String
  size : Int
  sha : String
  content : String
  repoId : Int
deriving DecidableEq

/-- The results database: the two tables created at lines 243-265, as lists
of rows in insertion order. -/
structure DB where
  repos : List RepoRow
  files : List FileRow
deriving DecidableEq

/-- Repository metadata as it appears nested in a search item, with the
fields insert_repo reads (lines 275-282). -/
structure RepoRecord where
  id : Int
  name : String
  fullName : String
  description : Option String
  url : String
  fork : Bool
  ownerId : Int
  ownerLogin : String
deriving DecidableEq

/-- One item of a search result page: the fields download_files_from_page
reads (lines 219-228): path and repository (used by known_file and
insert_repo) and url (used for the per-item content fetch). -/
structure Item where
  path : String
  url : String
  repo : RepoRecord
deriving DecidableEq

/-- Record returned by fetching an item's url (lines 224-228 and 292-297).
The base64 transport decoding at line 296 is abstracted away: content here
holds the already-decoded text that ends up in the file table. -/
structure FileRecord where
  type : String
  name : String
  path : String
  size : Int
  sha : String
  content : String
deriving DecidableEq

/-- INSERT OR IGNORE INTO repo (lines 267-284): the PRIMARY KEY on repo_id
makes the statement a no-op when a row with the same repo_id already
exists; db.commit() at line 284 makes the insert durable immediately. -/
def insert_repo (db : DB) (repo : RepoRecord) : DB :=
  if db.repos.any (fun r => r.repoId == repo.id) then db
  else { db with repos := db.repos ++
    [{ repoId := repo.id, name := repo.name, fullName := repo.fullName
     , description := repo.description, url := repo.url
     , fork := if repo.fork then 1 else 0
     , ownerId := repo.ownerId, ownerLogin := repo.ownerLogin }] }

/-- INSERT OR IGNORE INTO file (lines 286-299): the UNIQUE(path, repo_id)
constraint makes the statement a no-op when that identity already exists. -/
def insert_file (db : DB) (file : FileRecord) (repoId : Int) : DB :=
  if db.files.any (fun f => f.path == file.path && f.repoId == repoId) then db
  else { db with files := db.files ++
    [{ name := file.name, path := file.path, size := file.size
     , sha := file.sha, content := file.content, repoId := repoId }] }

/-- Number of file rows with the given (path, repo_id) identity: the
select count(*) of line 302. -/
def fileCount (db : DB) (path : String) (repoId : Int) : Nat :=
  (db.files.filter (fun f => f.path == path && f.repoId == repoId)).length

/-- known_file (lines 301-304): the count of rows with the item's
(path, repo_id) identity equals 1. -/
def known_file (db : DB) (item : Item) : Bool :=
  fileCount db item.path item.repo.id == 1

/-- The mutable state download_files_from_page touches: the database and the
counters sam (per-stratum) and total_sam (cumulative), lines 216-233. -/
structure HarvestState where
  db : DB
  sam : Int
  totalSam : Int
deriving DecidableEq

/-- Body of the per-item for loop of download_files_from_page
(lines 219-233). The fetch argument models get(item.url).json(): none is a
raised exception, caught by the bare except at line 225, whose continue
skips the remainder of the loop body including the counter updates. -/
def processItem (fetch : String → Option FileRecord) (st : HarvestState)
    (item : Item) : HarvestState :=
  if known_file st.db item then
    { st with sam := st.sam + 1, totalSam := st.totalSam + 1 }
  else
    let db1 := insert_repo st.db item.repo
    match fetch item.url with
    | none => { st with db := db1 }
    | some file =>
      let db2 := if file.type == "file" then insert_file db1 file item.repo.id else db1
      { db := db2, sam := st.sam + 1, totalSam := st.totalSam + 1 }

/-- download_files_from_page (lines 216-233): process every item of the page
in order. -/
def download_files_from_page (fetch : String → Option FileRecord)
    (st : HarvestState) (items : List Item) : HarvestState :=
  items.foldl (processItem fetch) st

/-- The empty database, as created on first startup (lines 242-265). -/
def initialDB : DB := { repos := [], files := [] }

/-- Startup sequencing: argument validation (lines 51-62) runs before the
database connection is opened (line 242) and before the statistics file is
read or created (lines 325-346), so a validation failure exits the process
before any database or ledger state exists. -/
def startup (a : Args) : Except String DB :=
  match validateArgs a with
  | .error msg => .error msg
  | .ok _ => .ok initialDB

-- Basic store lemmas ---------------------------------------------------------

theorem insert_repo_files (db : DB) (r : RepoRecord) :
    (insert_repo db r).files = db.files := by
  unfold insert_repo
  split <;> rfl

theorem insert_file_repos (db : DB) (f : FileRecord) (rid : Int) :
    (insert_file db f rid).repos = db.repos := by
  unfold insert_file
  split <;> rfl

/-- The any test of insert_file is exactly positivity of the row count. -/
theorem any_file_iff_count_pos (db : DB) (p : String) (rid : Int) :
    db.files.any (fun f => f.path == p && f.repoId == rid) = true ↔
      0 < fileCount db p rid := by
  rw [List.any_eq_true]
  unfold fileCount
  rw [List.length_pos]
  constructor
  · rintro ⟨f, hf, hpred⟩
    intro hnil
    have : f ∈ db.files.filter (fun f => f.path == p && f.repoId == rid) :=
      List.mem_filter.mpr ⟨hf, hpred⟩
    rw [hnil] at this
    exact absurd this (List.not_mem_nil f)
  · intro hne
    obtain ⟨f, hf⟩ := List.exists_mem_of_ne_nil _ hne
    exact ⟨f, (List.mem_filter.mp hf).1, (List.mem_filter.mp hf).2⟩

theorem insert_file_of_count_pos (db : DB) (f : FileRecord) (rid : Int)
    (h : 0 < fileCount db f.path rid) : insert_file db f rid = db := by
  unfold insert_file
  rw [if_pos ((any_file_iff_count_pos db f.path rid).mpr h)]

theorem insert_file_of_count_zero (db : DB) (f : FileRecord) (rid : Int)
    (h : fileCount db f.path rid = 0) :
    (insert_file db f rid).files = db.files ++
      [{ name := f.name, path := f.path, size := f.size
       , sha := f.sha, content := f.content, repoId := rid }] := by
  unfold insert_file
  rw [if_neg]
  · intro hany
    rw [any_file_iff_count_pos] at hany
    omega

theorem insert_repo_mem_ids (db : DB) (r : RepoRecord) :
    ((insert_repo db r).repos.any fun x => x.repoId == r.id) = true := by
  unfold insert_repo
  by_cases h : (db.repos.any fun x => x.repoId == r.id) = true
  · rw [if_pos h]
    exact h
  · rw [if_neg h]
    simp

theorem insert_repo_of_mem (db : DB) (r : RepoRecord)
    (h : (db.repos.any fun x => x.repoId == r.id) = true) :
    insert_repo db r = db := by
  unfold insert_repo
  rw [if_pos h]

theorem insert_file_mem_ids (db : DB) (f : FileRecord) (rid : Int) :
    ((insert_file db f rid).files.any fun x => x.path == f.path && x.repoId == rid) = true := by
  unfold insert_file
  by_cases h : (db.files.any fun x => x.path == f.path && x.repoId == rid) = true
  · rw [if_pos h]
    exact h
  · rw [if_neg h]
    simp

theorem insert_file_of_mem (db : DB) (f : FileRecord) (rid : Int)
    (h : (db.files.any fun x => x.path == f.path && x.repoId == rid) = true) :
    insert_file db f rid = db := by
  unfold insert_file
  rw [if_pos h]

-- Equations for the four branches of the per-item loop body -------------------

theorem processItem_known (fetch : String → Option FileRecord)
    (st : HarvestState) (item : Item) (hk : known_file st.db item = true) :
    processItem fetch st item =
      { st with sam := st.sam + 1, totalSam := st.totalSam + 1 } := by
  unfold processItem
  rw [hk]
  simp

theorem processItem_not_known_fail (fetch : String → Option FileRecord)
    (st : HarvestState) (item : Item)
    (hk : known_file st.db item = false) (hf : fetch item.url = none) :
    processItem fetch st item = { st with db := insert_repo st.db item.repo } := by
  unfold processItem
  rw [hk, hf]
  simp

theorem processItem_not_known_nonfile (fetch : String → Option FileRecord)
    (st : HarvestState) (item : Item) (f : FileRecord)
    (hk : known_file st.db item = false) (hf : fetch item.url = some f)
    (hty : f.type ≠ "file") :
    processItem fetch st item =
      { db := insert_repo st.db item.repo
      , sam := st.sam + 1, totalSam := st.totalSam + 1 } := by
  unfold processItem
  rw [hk, hf]
  have hty' : (f.type == "file") = false := by simpa using hty
  simp [hty']

theorem processItem_not_known_file (fetch : String → Option FileRecord)
    (st : HarvestState) (item : Item) (f : FileRecord)
    (hk : known_file st.db item = false) (hf : fetch item.url = some f)
    (hty : f.type = "file") :
    processItem fetch st item =
      { db := insert_file (insert_repo st.db item.repo) f item.repo.id
      , sam := st.sam + 1, totalSam := st.totalSam + 1 } := by
  unfold processItem
  rw [hk, hf]
  have hty' : (f.type == "file") = true := by simpa using hty
  simp [hty']

/-- Appending one file row changes the count of an identity by one when the
new row matches it and leaves it unchanged otherwise. -/
theorem fileCount_append (rs : List RepoRow) (fs : List FileRow) (row : FileRow)
    (p : String) (rid : Int) :
    fileCount { repos := rs, files := fs ++ [row] } p rid =
      fileCount { repos := rs, files := fs } p rid +
        (if row.path == p && row.repoId == rid then 1 else 0) := by
  unfold fileCount
  simp only [List.filter_append, List.length_append]
  congr 1
  by_cases h : (row.path == p && row.repoId == rid : Bool)
  · rw [if_pos h]
    simp [List.filter, h]
  · rw [if_neg h]
    simp only [List.filter, h]
    rfl

-- Concrete instances used by witnesses and counterexamples --------------------

def repoA : RepoRecord :=
  { id := 7, name := "r", fullName := "o/r", description := none
  , url := "https://api.github.com/repos/o/r", fork := false
  , ownerId := 3, ownerLogin := "o" }

def itemA : Item :=
  { path := "a.txt", url := "u1", repo := repoA }

def itemB : Item :=
  { path := "a.txt", url := "u2", repo := repoA }

def fileA : FileRecord :=
  { type := "file", name := "a.txt", path := "a.txt", size := 12
  , sha := "s1", content := "hello" }

def stA : HarvestState := { db := initialDB, sam := 0, totalSam := 0 }

-- C10: rejection of min_size = max_size -----------------------------------

/-- C10: an invocation with min_size equal to max_size is rejected during
argument validation (the check at line 53 is min_size >= max_size), with the
message of line 54 whenever the earlier min_size >= 1 check passed, and the
rejection happens before any database or ledger state is created (startup
yields no database); only configurations with min_size strictly below
max_size get past validation. -/
theorem equal_sizes_rejected (a : Args) :
    (a.minSize = a.maxSize → ∃ msg, startup a = .error msg) ∧
    (a.minSize = a.maxSize → 1 ≤ a.minSize →
      startup a = .error "min-size must be less than or equal to max-size") ∧
    (∀ db, startup a = .ok db → a.minSize < a.maxSize) := by
  unfold startup validateArgs
  refine ⟨?_, ?_, ?_⟩
  · intro heq
    split_ifs <;> first | exact ⟨_, rfl⟩ | omega
  · intro heq hpos
    split_ifs with h1 h2 <;> first | rfl | omega
  · intro db hdb
    split_ifs at hdb with h1 h2 h3 h4 h5 h6 <;> omega

/-- Witness for C10 at min_size = max_size = 5. -/
theorem equal_sizes_rejected_witness :
    startup { minSize := 5, maxSize := 5, stratumSize := 1
            , throttle := true, githubToken := "t" } =
      .error "min-size must be less than or equal to max-size" :=
  (equal_sizes_rejected _).2.1 rfl (by decide)

-- C7: idempotent insert-if-absent ------------------------------------------

/-- C7: insert_repo and insert_file are idempotent insert-if-absent
operations: a second call whose record carries the same repository id
(respectively the same (path, repo_id) identity) leaves the database in
exactly the state the first call produced, so the attributes of the
first-inserted record are never updated. -/
theorem insert_idempotent (db : DB) (r1 r2 : RepoRecord)
    (f1 f2 : FileRecord) (rid1 rid2 : Int)
    (hr : r2.id = r1.id) (hfp : f2.path = f1.path) (hrid : rid2 = rid1) :
    insert_repo (insert_repo db r1) r2 = insert_repo db r1 ∧
    insert_file (insert_file db f1 rid1) f2 rid2 = insert_file db f1 rid1 := by
  constructor
  · apply insert_repo_of_mem
    rw [hr]
    exact insert_repo_mem_ids db r1
  · apply insert_file_of_mem
    rw [hfp, hrid]
    exact insert_file_mem_ids db f1 rid1

/-- Witness for C7: inserting the same repository id and the same file
identity twice, with differing non-identity attributes, equals inserting
once. -/
theorem insert_idempotent_witness :
    insert_repo (insert_repo initialDB repoA) { repoA with name := "other" } =
      insert_repo initialDB repoA ∧
    insert_file (insert_file initialDB fileA 7) { fileA with sha := "s2" } 7 =
      insert_file initialDB fileA 7 :=
  insert_idempotent initialDB repoA { repoA with name := "other" }
    fileA { fileA with sha := "s2" } 7 7 rfl rfl rfl

-- C1: per-item fetch failure -----------------------------------------------

/-- Counterexample to C1: for a concrete unknown item whose content fetch
fails, download_files_from_page does not increment sam or total_sam,
contradicting the claim that both counters are incremented exactly as for
successfully stored items. -/
theorem fetch_failure_counted_counterexample :
    known_file stA.db itemA = false ∧
    (processItem (fun _ => none) stA itemA).sam ≠ stA.sam + 1 ∧
    (processItem (fun _ => none) stA itemA).totalSam ≠ stA.totalSam + 1 := by
  decide

/-- C1 (amended): when the per-item content fetch fails for an item that is
not already in the Result Store, the item is skipped without being stored,
and neither sam nor total_sam is incremented: the continue at line 226 skips
the counter updates of lines 229-230, so the item counts as not sampled,
matching the source comment at lines 202-203. -/
theorem fetch_failure_not_counted (fetch : String → Option FileRecord)
    (st : HarvestState) (item : Item)
    (hk : known_file st.db item = false) (hf : fetch item.url = none) :
    (processItem fetch st item).sam = st.sam ∧
    (processItem fetch st item).totalSam = st.totalSam ∧
    (processItem fetch st item).db.files = st.db.files := by
  rw [processItem_not_known_fail fetch st item hk hf]
  exact ⟨rfl, rfl, insert_repo_files st.db item.repo⟩

/-- Witness for C1's amended theorem at a concrete unknown item with a
failing fetch. -/
theorem fetch_failure_not_counted_witness :
    (processItem (fun _ => none) stA itemA).sam = stA.sam ∧
    (processItem (fun _ => none) stA itemA).totalSam = stA.totalSam ∧
    (processItem (fun _ => none) stA itemA).db.files = stA.db.files :=
  fetch_failure_not_counted (fun _ => none) stA itemA (by decide) rfl

-- C9: repository committed before the item fetch ----------------------------

/-- C9: for an item not already in the store, the repository record is
committed by insert_repo (line 222) before the content fetch is attempted
(line 224); hence if the fetch raises, or the fetched record's type is not
"file", the repository row is durably in the database while no file row for
the item was created: item processing is not atomic on error. -/
theorem repo_insert_not_atomic (fetch : String → Option FileRecord)
    (st : HarvestState) (item : Item)
    (hk : known_file st.db item = false)
    (hf : fetch item.url = none ∨
          ∃ f, fetch item.url = some f ∧ f.type ≠ "file") :
    (processItem fetch st item).db.files = st.db.files ∧
    (processItem fetch st item).db.repos = (insert_repo st.db item.repo).repos ∧
    ∃ r ∈ (processItem fetch st item).db.repos, r.repoId = item.repo.id := by
  have hmem : ∃ r ∈ (insert_repo st.db item.repo).repos, r.repoId = item.repo.id := by
    obtain ⟨r, hr, hbeq⟩ := List.any_eq_true.mp (insert_repo_mem_ids st.db item.repo)
    exact ⟨r, hr, by simpa using hbeq⟩
  rcases hf with hf | ⟨f, hf, hty⟩
  · rw [processItem_not_known_fail fetch st item hk hf]
    exact ⟨insert_repo_files st.db item.repo, rfl, hmem⟩
  · rw [processItem_not_known_nonfile fetch st item f hk hf hty]
    exact ⟨insert_repo_files st.db item.repo, rfl, hmem⟩

/-- Witness for C9: combines a failing fetch and a fetch returning a
non-file record (a directory listing), each at a concrete unknown item. -/
theorem repo_insert_not_atomic_witness :
    ((processItem (fun _ => none) stA itemA).db.files = stA.db.files ∧
     (processItem (fun _ => none) stA itemA).db.repos =
        (insert_repo stA.db itemA.repo).repos ∧
     ∃ r ∈ (processItem (fun _ => none) stA itemA).db.repos,
        r.repoId = itemA.repo.id) ∧
    ((processItem (fun _ => some { fileA with type := "dir" }) stA itemA).db.files =
        stA.db.files ∧
     (processItem (fun _ => some { fileA with type := "dir" }) stA itemA).db.repos =
        (insert_repo stA.db itemA.repo).repos ∧
     ∃ r ∈ (processItem (fun _ => some { fileA with type := "dir" }) stA itemA).db.repos,
        r.repoId = itemA.repo.id) :=
  ⟨repo_insert_not_atomic (fun _ => none) stA itemA (by decide) (Or.inl rfl),
   repo_insert_not_atomic (fun _ => some { fileA with type := "dir" }) stA itemA
     (by decide) (Or.inr ⟨{ fileA with type := "dir" }, rfl, by decide⟩)⟩

-- C6: dedup on (path, repo_id) while still counting ------------------------

/-- Inserting a file whose identity is absent appends one row; the row count
of any identity grows by one when the new row matches it and is unchanged
otherwise. -/
theorem fileCount_insert_file_zero (db : DB) (f : FileRecord) (rid2 : Int)
    (h0 : fileCount db f.path rid2 = 0) (p : String) (rid : Int) :
    fileCount (insert_file db f rid2) p rid =
      fileCount db p rid + (if f.path = p ∧ rid2 = rid then 1 else 0) := by
  have happ := insert_file_of_count_zero db f rid2 h0
  unfold fileCount
  rw [happ, List.filter_append, List.length_append]
  congr 1
  by_cases hm : f.path = p ∧ rid2 = rid
  · rw [if_pos hm]
    simp [List.filter_cons, hm.1, hm.2]
  · rw [if_neg hm]
    rcases not_and_or.mp hm with hne | hne <;> simp [List.filter_cons, hne]

/-- A (path, repo_id) identity stored exactly once stays stored exactly once
through any further item processing: the store only ever inserts rows whose
identity is absent. -/
theorem processItem_fileCount_one (fetch : String → Option FileRecord)
    (st : HarvestState) (it : Item) (p : String) (rid : Int)
    (h : fileCount st.db p rid = 1) :
    fileCount (processItem fetch st it).db p rid = 1 := by
  by_cases hk : known_file st.db it = true
  · rw [processItem_known fetch st it hk]
    exact h
  · replace hk : known_file st.db it = false := by
      simpa using hk
    have h1 : fileCount (insert_repo st.db it.repo) p rid = 1 := by
      unfold fileCount
      rw [insert_repo_files]
      exact h
    cases hfetch : fetch it.url with
    | none =>
      rw [processItem_not_known_fail fetch st it hk hfetch]
      exact h1
    | some f =>
      by_cases hty : f.type = "file"
      · rw [processItem_not_known_file fetch st it f hk hfetch hty]
        by_cases hc : 0 < fileCount (insert_repo st.db it.repo) f.path it.repo.id
        · rw [insert_file_of_count_pos _ f it.repo.id hc]
          exact h1
        · have hc0 : fileCount (insert_repo st.db it.repo) f.path it.repo.id = 0 := by
            omega
          rw [fileCount_insert_file_zero _ f it.repo.id hc0 p rid, if_neg]
          · exact h1
          · rintro ⟨hpeq, hreq⟩
            rw [hpeq, hreq] at hc0
            omega
      · rw [processItem_not_known_nonfile fetch st it f hk hfetch hty]
        exact h1

theorem download_files_fileCount_one (fetch : String → Option FileRecord)
    (p : String) (rid : Int) :
    ∀ (items : List Item) (st : HarvestState), fileCount st.db p rid = 1 →
      fileCount (download_files_from_page fetch st items).db p rid = 1 := by
  intro items
  induction items with
  | nil =>
    intro st h
    exact h
  | cons it rest ih =>
    intro st h
    simp only [download_files_from_page, List.foldl_cons]
    exact ih (processItem fetch st it) (processItem_fileCount_one fetch st it p rid h)

/-- Property of the per-item loop: an item whose (path, repo_id) identity is
already in the Result Store is counted toward sam and total_sam without any
store mutation, and the outcome does not depend on the fetch function at all
(no content fetch is performed for it). -/
def knownItemCounted : Prop :=
  ∀ (g g2 : String → Option FileRecord) (st : HarvestState) (it : Item),
    known_file st.db it = true →
      processItem g st it =
        { st with sam := st.sam + 1, totalSam := st.totalSam + 1 } ∧
      processItem g st it = processItem g2 st it

/-- Scenario of C6's example: item i1 is stored, arbitrary items mid are
processed (the rest of the forward pass and the start of the reverse pass),
then item i2 with the same (path, repo_id) identity arrives: the file table
holds exactly one row for the identity throughout, while each of the two
items increments sam (and total_sam) by one. -/
def dedupAcrossPasses (fetch : String → Option FileRecord) (st0 : HarvestState)
    (i1 i2 : Item) (mid : List Item) : Prop :=
  fileCount (processItem fetch st0 i1).db i1.path i1.repo.id = 1 ∧
  (processItem fetch st0 i1).sam = st0.sam + 1 ∧
  (processItem fetch st0 i1).totalSam = st0.totalSam + 1 ∧
  known_file (download_files_from_page fetch (processItem fetch st0 i1) mid).db i2 = true ∧
  (processItem fetch (download_files_from_page fetch (processItem fetch st0 i1) mid) i2).db =
    (download_files_from_page fetch (processItem fetch st0 i1) mid).db ∧
  (processItem fetch (download_files_from_page fetch (processItem fetch st0 i1) mid) i2).sam =
    (download_files_from_page fetch (processItem fetch st0 i1) mid).sam + 1 ∧
  (processItem fetch (download_files_from_page fetch (processItem fetch st0 i1) mid) i2).totalSam =
    (download_files_from_page fetch (processItem fetch st0 i1) mid).totalSam + 1 ∧
  fileCount (processItem fetch (download_files_from_page fetch (processItem fetch st0 i1) mid) i2).db
    i1.path i1.repo.id = 1

/-- C6: an item whose (path, repo_id) identity is already in the file table
causes no store mutation and no content fetch but still increments sam and
total_sam; consequently two items with the same identity met across the
forward and reverse passes of a stratum (the first fetched successfully as a
file record with the matching path) leave exactly one row in the file table
while incrementing the sampled counters twice. -/
theorem dedup_counts_twice_stores_once (fetch : String → Option FileRecord)
    (st0 : HarvestState) (i1 i2 : Item) (mid : List Item) (f : FileRecord)
    (hzero : fileCount st0.db i1.path i1.repo.id = 0)
    (hfetch : fetch i1.url = some f) (hty : f.type = "file")
    (hpath : f.path = i1.path)
    (hp : i2.path = i1.path) (hr : i2.repo.id = i1.repo.id) :
    knownItemCounted ∧ dedupAcrossPasses fetch st0 i1 i2 mid := by
  constructor
  · intro g g2 st it hk
    rw [processItem_known g st it hk, processItem_known g2 st it hk]
    exact ⟨rfl, rfl⟩
  · have hk1 : known_file st0.db i1 = false := by
      simp [known_file, hzero]
    have hstep := processItem_not_known_file fetch st0 i1 f hk1 hfetch hty
    have hcount1 : fileCount (processItem fetch st0 i1).db i1.path i1.repo.id = 1 := by
      rw [hstep]
      have hz1 : fileCount (insert_repo st0.db i1.repo) f.path i1.repo.id = 0 := by
        unfold fileCount
        rw [insert_repo_files, hpath]
        exact hzero
      rw [fileCount_insert_file_zero _ f i1.repo.id hz1 i1.path i1.repo.id,
          if_pos ⟨hpath, rfl⟩]
      rw [hpath] at hz1
      omega
    have hcount2 : fileCount (download_files_from_page fetch (processItem fetch st0 i1) mid).db
        i1.path i1.repo.id = 1 :=
      download_files_fileCount_one fetch i1.path i1.repo.id mid _ hcount1
    have hk2 : known_file (download_files_from_page fetch (processItem fetch st0 i1) mid).db i2 = true := by
      simp [known_file, hp, hr, hcount2]
    have hstep2 := processItem_known fetch
      (download_files_from_page fetch (processItem fetch st0 i1) mid) i2 hk2
    refine ⟨hcount1, by rw [hstep], by rw [hstep], hk2, by rw [hstep2], by rw [hstep2],
      by rw [hstep2], by rw [hstep2]; exact hcount2⟩

/-- Witness for C6: the same file met twice (itemA then itemB, same path and
repository) with no items in between. -/
theorem dedup_counts_twice_stores_once_witness :
    knownItemCounted ∧ dedupAcrossPasses (fun _ => some fileA) stA itemA itemB [] :=
  dedup_counts_twice_stores_once (fun _ => some fileA) stA itemA itemB [] fileA
    (by decide) rfl rfl rfl rfl rfl

-- C5: pass count and recorded population per stratum ------------------------

/-- One page of search results: the response's total_count and items array. -/
structure Page where
  totalCount : Int
  items : List Item
deriving DecidableEq

/-- download_all_files (lines 205-214): process the already-fetched first
page, then follow next links; each later page's total_count raises pop via
max (lines 211-212). Returns the updated pop with the harvest state. -/
def download_all_files (fetch : String → Option FileRecord) (pop : Int)
    (st : HarvestState) (first : Page) (rest : List Page) : Int × HarvestState :=
  rest.foldl
    (fun ps page =>
      (max ps.1 page.totalCount, download_files_from_page fetch ps.2 page.items))
    (pop, download_files_from_page fetch st first.items)

/-- Responses one search pass yields: the page answering the search call
itself and the pages reached by following next links. -/
structure PassEnv where
  first : Page
  rest : List Page
deriving DecidableEq

/-- Largest total_count reported across the pages of one pass. -/
def passMax (p : PassEnv) : Int :=
  p.rest.foldl (fun m page => max m page.totalCount) p.first.totalCount

/-- What one iteration of the main loop records for its stratum. -/
structure StratumResult where
  pop : Int
  sam : Int
  totalSam : Int
  db : DB
  passes : Nat
deriving DecidableEq

/-- One iteration of the main harvest loop for a single stratum
(lines 375-411): pop from the forward search response, sam reset to 0,
forward pagination, a reverse-order pass when pop exceeds 1000 (taking the
max of the observed totals, lines 391-405), and finally the (pop, sam) pair
written to the statistics row (line 410). passes counts the search calls
issued for the stratum. -/
def harvestStratum (fetch : String → Option FileRecord) (fwd rev : PassEnv)
    (db0 : DB) (totalSam0 : Int) : StratumResult :=
  let p1 := download_all_files fetch fwd.first.totalCount
    { db := db0, sam := 0, totalSam := totalSam0 } fwd.first fwd.rest
  if p1.1 > 1000 then
    let p2 := download_all_files fetch (max p1.1 rev.first.totalCount)
      p1.2 rev.first rev.rest
    { pop := p2.1, sam := p2.2.sam, totalSam := p2.2.totalSam
    , db := p2.2.db, passes := 2 }
  else
    { pop := p1.1, sam := p1.2.sam, totalSam := p1.2.totalSam
    , db := p1.2.db, passes := 1 }

theorem download_all_files_fst (fetch : String → Option FileRecord) :
    ∀ (rest : List Page) (pop : Int) (st : HarvestState) (first : Page),
      (download_all_files fetch pop st first rest).1 =
        rest.foldl (fun m page => max m page.totalCount) pop := by
  intro rest
  unfold download_all_files
  suffices h : ∀ (l : List Page) (pop : Int) (st : HarvestState),
      (l.foldl (fun ps page =>
          (max ps.1 page.totalCount, download_files_from_page fetch ps.2 page.items))
        (pop, st)).1 = l.foldl (fun m page => max m page.totalCount) pop by
    intro pop st first
    exact h rest pop (download_files_from_page fetch st first.items)
  intro l
  induction l with
  | nil =>
    intro pop st
    rfl
  | cons page l ih =>
    intro pop st
    simp only [List.foldl_cons]
    exact ih (max pop page.totalCount) (download_files_from_page fetch st page.items)

theorem foldl_max_split :
    ∀ (l : List Page) (x y : Int),
      l.foldl (fun m page => max m page.totalCount) (max x y) =
        max x (l.foldl (fun m page => max m page.totalCount) y) := by
  intro l
  induction l with
  | nil =>
    intro x y
    rfl
  | cons page l ih =>
    intro x y
    simp only [List.foldl_cons]
    rw [max_assoc]
    exact ih x (max y page.totalCount)

/-- C5: a stratum whose population as recorded after the forward pass (the
max of the totals that pass reported, across its pages) is at most 1000
issues exactly one search pass; above 1000 exactly one reverse-order pass is
added, and the population recorded for the stratum is the maximum of the
totals reported by the two passes, never less than either observation. -/
theorem pass_count_and_population (fetch : String → Option FileRecord)
    (fwd rev : PassEnv) (db0 : DB) (totalSam0 : Int) :
    (passMax fwd ≤ 1000 →
      (harvestStratum fetch fwd rev db0 totalSam0).passes = 1 ∧
      (harvestStratum fetch fwd rev db0 totalSam0).pop = passMax fwd) ∧
    (1000 < passMax fwd →
      (harvestStratum fetch fwd rev db0 totalSam0).passes = 2 ∧
      (harvestStratum fetch fwd rev db0 totalSam0).pop = max (passMax fwd) (passMax rev) ∧
      passMax fwd ≤ (harvestStratum fetch fwd rev db0 totalSam0).pop ∧
      passMax rev ≤ (harvestStratum fetch fwd rev db0 totalSam0).pop) := by
  have h1 : (download_all_files fetch fwd.first.totalCount
      { db := db0, sam := 0, totalSam := totalSam0 } fwd.first fwd.rest).1 = passMax fwd :=
    download_all_files_fst fetch fwd.rest fwd.first.totalCount _ fwd.first
  unfold harvestStratum
  by_cases hbig : passMax fwd > 1000
  · rw [if_pos (by rw [h1]; exact hbig)]
    have h2 : (download_all_files fetch
        (max (download_all_files fetch fwd.first.totalCount
          { db := db0, sam := 0, totalSam := totalSam0 } fwd.first fwd.rest).1
          rev.first.totalCount)
        (download_all_files fetch fwd.first.totalCount
          { db := db0, sam := 0, totalSam := totalSam0 } fwd.first fwd.rest).2
        rev.first rev.rest).1 = max (passMax fwd) (passMax rev) := by
      rw [download_all_files_fst, h1, foldl_max_split]
      rfl
    constructor
    · intro hle
      omega
    · intro _
      exact ⟨rfl, h2, le_of_le_of_eq (le_max_left _ _) h2.symm,
        le_of_le_of_eq (le_max_right _ _) h2.symm⟩
  · rw [if_neg (by rw [h1]; exact hbig)]
    constructor
    · intro _
      exact ⟨rfl, h1⟩
    · intro hgt
      omega

/-- Witness for C5: a small stratum (single pass) and an oversize stratum
(reverse pass added, recorded population is the max of the two observations). -/
theorem pass_count_and_population_witness :
    (passMax { first := { totalCount := 40, items := [] }, rest := [] } ≤ 1000 ∧
      (harvestStratum (fun _ => none)
        { first := { totalCount := 40, items := [] }, rest := [] }
        { first := { totalCount := 0, items := [] }, rest := [] } initialDB 0).passes = 1 ∧
      (harvestStratum (fun _ => none)
        { first := { totalCount := 40, items := [] }, rest := [] }
        { first := { totalCount := 0, items := [] }, rest := [] } initialDB 0).pop =
        passMax { first := { totalCount := 40, items := [] }, rest := [] }) ∧
    (1000 < passMax { first := { totalCount := 1500, items := [] }, rest := [] } ∧
      (harvestStratum (fun _ => none)
        { first := { totalCount := 1500, items := [] }, rest := [] }
        { first := { totalCount := 1700, items := [] }, rest := [] } initialDB 0).passes = 2 ∧
      (harvestStratum (fun _ => none)
        { first := { totalCount := 1500, items := [] }, rest := [] }
        { first := { totalCount := 1700, items := [] }, rest := [] } initialDB 0).pop =
        max (passMax { first := { totalCount := 1500, items := [] }, rest := [] })
            (passMax { first := { totalCount := 1700, items := [] }, rest := [] })) :=
  ⟨⟨by decide,
    ((pass_count_and_population (fun _ => none)
      { first := { totalCount := 40, items := [] }, rest := [] }
      { first := { totalCount := 0, items := [] }, rest := [] } initialDB 0).1
      (by decide)).1,
    ((pass_count_and_population (fun _ => none)
      { first := { totalCount := 40, items := [] }, rest := [] }
      { first := { totalCount := 0, items := [] }, rest := [] } initialDB 0).1
      (by decide)).2⟩,
   ⟨by decide,
    ((pass_count_and_population (fun _ => none)
      { first := { totalCount := 1500, items := [] }, rest := [] }
      { first := { totalCount := 1700, items := [] }, rest := [] } initialDB 0).2
      (by decide)).1,
    ((pass_count_and_population (fun _ => none)
      { first := { totalCount := 1500, items := [] }, rest := [] }
      { first := { totalCount := 1700, items := [] }, rest := [] } initialDB 0).2
      (by decide)).2.1⟩⟩

-- C8: rate-limited request client -------------------------------------------

/-- HTTP response as the request client observes it: status code and the two
headers handle_rate_limit_error consults (lines 177 and 181), both integral. -/
structure HttpResponse where
  status : Nat
  rateLimitReset : Option Int
  retryAfter : Option Int
deriving DecidableEq

/-- Cooldown computed by handle_rate_limit_error (lines 176-181) when it
runs at wall-clock time now: reset timestamp minus now when the
X-RateLimit-Reset header is present, otherwise the Retry-After header,
defaulting to 60 seconds. -/
def rateLimitWait (now : Int) (res : HttpResponse) : Int :=
  match res.rateLimitReset with
  | some t => t - now
  | none =>
    match res.retryAfter with
    | some t => t
    | none => 60

/-- Outcome of get (lines 165-186): a response handed to the caller, an
exception raised by raise_for_status, or exhaustion of the modelled response
sequence while still retrying 403s. sleeps lists the cooldowns slept, one
per 403 received. -/
inductive GetResult where
  | ok (sleeps : List Int) (res : HttpResponse)
  | httpError (sleeps : List Int) (res : HttpResponse)
  | exhausted
deriving DecidableEq

/-- The request client get (lines 165-174). The environment lists, in
order, the (wall-clock time, response) pairs the upstream produces for the
request and its verbatim retries (handle_rate_limit_error re-issues
res.url, which carries the original query parameters). A 403 leads to a
sleep of rateLimitWait followed by a retry; any other status in [400, 600)
makes raise_for_status raise to the caller; anything else is returned. -/
def get : List (Int × HttpResponse) → GetResult
  | [] => .exhausted
  | (now, res) :: rest =>
    if res.status = 403 then
      match get rest with
      | .ok sleeps r => .ok (rateLimitWait now res :: sleeps) r
      | .httpError sleeps r => .httpError (rateLimitWait now res :: sleeps) r
      | .exhausted => .exhausted
    else if 400 ≤ res.status ∧ res.status < 600 then .httpError [] res
    else .ok [] res

/-- C8: every 403 is absorbed inside the client: each one causes a sleep of
reset-minus-now (header present) or Retry-After (60 when absent) and a
retry, repeating until the first non-403 response, which is returned when
successful; a 403 is never surfaced, while any other non-success status
(raise_for_status covers [400, 600)) is raised to the caller without
consuming any further response (no retry at this layer). -/
theorem rate_limit_retry (pre : List (Int × HttpResponse)) (now : Int)
    (r : HttpResponse) (post : List (Int × HttpResponse))
    (hpre : ∀ q ∈ pre, q.2.status = 403) (hr : r.status ≠ 403) :
    (get (pre ++ (now, r) :: post) =
      if 400 ≤ r.status ∧ r.status < 600
      then GetResult.httpError (pre.map fun q => rateLimitWait q.1 q.2) r
      else GetResult.ok (pre.map fun q => rateLimitWait q.1 q.2) r) ∧
    (∀ (t reset : Int) (res : HttpResponse), res.rateLimitReset = some reset →
      rateLimitWait t res = reset - t) ∧
    (∀ (t retry : Int) (res : HttpResponse), res.rateLimitReset = none →
      res.retryAfter = some retry → rateLimitWait t res = retry) ∧
    (∀ (t : Int) (res : HttpResponse), res.rateLimitReset = none →
      res.retryAfter = none → rateLimitWait t res = 60) := by
  refine ⟨?_, ?_, ?_, ?_⟩
  · induction pre with
    | nil =>
      simp only [List.nil_append, List.map_nil]
      unfold get
      rw [if_neg hr]
    | cons q pre ih =>
      have hq : q.2.status = 403 := hpre q (List.mem_cons_self q pre)
      have ih' := ih (fun p hp => hpre p (List.mem_cons_of_mem q hp))
      obtain ⟨tq, resq⟩ := q
      simp only [List.cons_append, List.map_cons]
      unfold get
      rw [if_pos hq]
      rw [ih']
      by_cases hs : 400 ≤ r.status ∧ r.status < 600
      · rw [if_pos hs, if_pos hs]
      · rw [if_neg hs, if_neg hs]
  · intro t reset res h
    unfold rateLimitWait
    rw [h]
  · intro t retry res h1 h2
    unfold rateLimitWait
    rw [h1, h2]
  · intro t res h1 h2
    unfold rateLimitWait
    rw [h1, h2]

def resp403 : HttpResponse :=
  { status := 403, rateLimitReset := some 100, retryAfter := none }

def resp403b : HttpResponse :=
  { status := 403, rateLimitReset := none, retryAfter := some 7 }

def resp200 : HttpResponse :=
  { status := 200, rateLimitReset := none, retryAfter := none }

/-- Witness for C8: two 403s (one with a reset header observed at time 40,
one with Retry-After) followed by a 200; the client sleeps 60 and 7 seconds
and surfaces the 200. -/
theorem rate_limit_retry_witness :
    (∀ q ∈ [((40 : Int), resp403), ((100 : Int), resp403b)], q.2.status = 403) ∧
    resp200.status ≠ 403 ∧
    get ([((40 : Int), resp403), ((100 : Int), resp403b)] ++ (200, resp200) :: []) =
      GetResult.ok [60, 7] resp200 := by
  refine ⟨by decide, by decide, ?_⟩
  have h := (rate_limit_retry [((40 : Int), resp403), ((100 : Int), resp403b)]
    200 resp200 [] (by decide) (by decide)).1
  rw [h, if_neg (by decide)]
  decide

-- Stratum Planner ------------------------------------------------------------

/-- Initial stratum cursor (lines 76-77). -/
def stratInit (a : Args) : Int × Int :=
  (a.minSize, min (a.minSize + a.stratumSize - 1) a.maxSize)

/-- Cursor advance at the end of each main-loop iteration (lines 413-414). -/
def stratumStep (a : Args) (fl : Int × Int) : Int × Int :=
  (fl.1 + a.stratumSize, min (fl.2 + a.stratumSize) a.maxSize)

/-- Sequence of (strat_first, strat_last) cursor values the main loop of
line 375 iterates over, starting from cursor fl; the loop runs while
strat_first stays at most max_size, and fuel bounds the number of
iterations unwound. -/
def strataFrom (a : Args) : Nat → Int × Int → List (Int × Int)
  | 0, _ => []
  | fuel+1, fl =>
    if fl.1 ≤ a.maxSize then fl :: strataFrom a fuel (stratumStep a fl) else []

/-- Fuel that always suffices: one unit per size in [min_size, max_size]. -/
def defaultFuel (a : Args) : Nat := (a.maxSize + 1 - a.minSize).toNat

/-- The full stratum sequence of an uninterrupted run. -/
def strata (a : Args) : List (Int × Int) := strataFrom a (defaultFuel a) (stratInit a)

/-- Cursor whose last component is derived from its first component the way
every cursor value reachable from the initialization is. -/
def mkStrat (a : Args) (f : Int) : Int × Int :=
  (f, min (f + a.stratumSize - 1) a.maxSize)

@[simp] theorem mkStrat_fst (a : Args) (f : Int) : (mkStrat a f).1 = f := rfl

@[simp] theorem mkStrat_snd (a : Args) (f : Int) :
    (mkStrat a f).2 = min (f + a.stratumSize - 1) a.maxSize := rfl

theorem stratInit_eq_mkStrat (a : Args) : stratInit a = mkStrat a a.minSize := rfl

theorem stratumStep_mkStrat (a : Args) (f : Int) (hss : 1 ≤ a.stratumSize) :
    stratumStep a (mkStrat a f) = mkStrat a (f + a.stratumSize) := by
  unfold stratumStep mkStrat
  refine Prod.ext rfl ?_
  simp only
  omega

theorem strataFrom_nil (a : Args) (fuel : Nat) (fl : Int × Int)
    (h : a.maxSize < fl.1) : strataFrom a fuel fl = [] := by
  cases fuel with
  | zero => rfl
  | succ n =>
    unfold strataFrom
    rw [if_neg (by omega)]

theorem strataFrom_cons (a : Args) (fuel : Nat) (fl : Int × Int)
    (h : fl.1 ≤ a.maxSize) :
    strataFrom a (fuel + 1) fl = fl :: strataFrom a fuel (stratumStep a fl) := by
  rw [strataFrom, if_pos h]

/-- With the termination measure below the fuel, the produced sequence does
not depend on the fuel: the loop reaches its exit condition. -/
theorem strataFrom_fuel_congr (a : Args) (hss : 1 ≤ a.stratumSize) :
    ∀ (fuel1 fuel2 : Nat) (f : Int),
      (a.maxSize + 1 - f).toNat ≤ fuel1 → (a.maxSize + 1 - f).toNat ≤ fuel2 →
      strataFrom a fuel1 (mkStrat a f) = strataFrom a fuel2 (mkStrat a f) := by
  intro fuel1
  induction fuel1 with
  | zero =>
    intro fuel2 f h1 h2
    rw [strataFrom_nil a 0 _ (by simp only [mkStrat_fst]; omega),
        strataFrom_nil a fuel2 _ (by simp only [mkStrat_fst]; omega)]
  | succ n ih =>
    intro fuel2 f h1 h2
    by_cases hf : f ≤ a.maxSize
    · obtain ⟨m, rfl⟩ : ∃ m, fuel2 = m + 1 := ⟨fuel2 - 1, by omega⟩
      rw [strataFrom_cons a n _ hf, strataFrom_cons a m _ hf,
          stratumStep_mkStrat a f hss]
      rw [ih m (f + a.stratumSize) (by omega) (by omega)]
    · rw [strataFrom_nil a _ _ (by simp only [mkStrat_fst]; omega),
          strataFrom_nil a _ _ (by simp only [mkStrat_fst]; omega)]

/-- Every produced cursor is well-formed, lies at or after the start and at
or before max_size, and sits a whole number of stratum widths after the
start. -/
theorem strataFrom_mem (a : Args) (hss : 1 ≤ a.stratumSize) :
    ∀ (fuel : Nat) (f : Int) (p : Int × Int),
      p ∈ strataFrom a fuel (mkStrat a f) →
      ∃ k : Nat, p = mkStrat a (f + k * a.stratumSize) ∧
        f ≤ p.1 ∧ p.1 ≤ a.maxSize := by
  intro fuel
  induction fuel with
  | zero =>
    intro f p hp
    simp [strataFrom] at hp
  | succ n ih =>
    intro f p hp
    by_cases hf : f ≤ a.maxSize
    · rw [strataFrom_cons _ _ _ hf, stratumStep_mkStrat _ _ hss] at hp
      rcases List.mem_cons.mp hp with h | h
      · refine ⟨0, by simpa using h, ?_, ?_⟩
        · rw [h]
          simp
        · rw [h]
          simpa using hf
      · obtain ⟨k, hk, hk1, hk2⟩ := ih (f + a.stratumSize) p h
        refine ⟨k + 1, ?_, by omega, hk2⟩
        rw [hk]
        congr 1
        push_cast
        ring
    · rw [strataFrom_nil a _ _ (by simp only [mkStrat_fst]; omega)] at hp
      exact absurd hp (List.not_mem_nil p)

/-- The generated strata exactly cover the remaining interval [f, max_size]. -/
theorem strataFrom_cover (a : Args) (hss : 1 ≤ a.stratumSize) :
    ∀ (fuel : Nat) (f : Int), (a.maxSize + 1 - f).toNat ≤ fuel →
      ∀ x : Int, (f ≤ x ∧ x ≤ a.maxSize) ↔
        ∃ p ∈ strataFrom a fuel (mkStrat a f), p.1 ≤ x ∧ x ≤ p.2 := by
  intro fuel
  induction fuel with
  | zero =>
    intro f hfuel x
    constructor
    · intro ⟨h1, h2⟩
      omega
    · intro ⟨p, hp, _⟩
      simp [strataFrom] at hp
  | succ n ih =>
    intro f hfuel x
    by_cases hf : f ≤ a.maxSize
    · rw [strataFrom_cons _ _ _ hf, stratumStep_mkStrat _ _ hss]
      constructor
      · intro ⟨h1, h2⟩
        by_cases hx : x ≤ min (f + a.stratumSize - 1) a.maxSize
        · exact ⟨mkStrat a f, List.mem_cons_self _ _, by simpa using h1, by simpa using hx⟩
        · have hx2 : f + a.stratumSize ≤ x := by omega
          obtain ⟨p, hp, hpx⟩ := (ih (f + a.stratumSize) (by omega) x).mp ⟨hx2, h2⟩
          exact ⟨p, List.mem_cons_of_mem _ hp, hpx⟩
      · intro ⟨p, hp, hx1, hx2⟩
        rcases List.mem_cons.mp hp with h | h
        · rw [h] at hx1 hx2
          simp only [mkStrat_fst, mkStrat_snd] at hx1 hx2
          omega
        · obtain ⟨k, hk, hk1, hk2⟩ := strataFrom_mem a hss n (f + a.stratumSize) p h
          have hp2 : p.2 ≤ a.maxSize := by
            rw [hk]
            simp only [mkStrat_snd]
            omega
          omega
    · rw [strataFrom_nil a _ _ (by simp only [mkStrat_fst]; omega)]
      simp only [List.not_mem_nil, false_and, exists_false, exists_prop, iff_false]
      omega

/-- Consecutive strata are contiguous: each stratum starts right after the
previous one ends. -/
theorem strataFrom_chain (a : Args) (hss : 1 ≤ a.stratumSize) :
    ∀ (fuel : Nat) (f : Int),
      List.Chain' (fun p q => q.1 = p.2 + 1) (strataFrom a fuel (mkStrat a f)) := by
  intro fuel
  induction fuel with
  | zero =>
    intro f
    simp [strataFrom]
  | succ n ih =>
    intro f
    by_cases hf : f ≤ a.maxSize
    · rw [strataFrom_cons _ _ _ hf, stratumStep_mkStrat _ _ hss]
      apply List.chain'_cons'.mpr
      refine ⟨?_, ih (f + a.stratumSize)⟩
      intro q hq
      cases n with
      | zero => simp [strataFrom] at hq
      | succ m =>
        by_cases hf2 : f + a.stratumSize ≤ a.maxSize
        · rw [strataFrom_cons _ _ _ (by simpa using hf2)] at hq
          simp only [List.head?_cons, Option.mem_some_iff] at hq
          rw [← hq]
          simp only [mkStrat_fst, mkStrat_snd]
          omega
        · rw [strataFrom_nil a _ _ (by simp only [mkStrat_fst]; omega)] at hq
          simp at hq
    · rw [strataFrom_nil a _ _ (by simp only [mkStrat_fst]; omega)]
      exact List.chain'_nil

/-- Strata are pairwise non-overlapping (in fact strictly ordered). -/
theorem strataFrom_pairwise (a : Args) (hss : 1 ≤ a.stratumSize) :
    ∀ (fuel : Nat) (f : Int),
      List.Pairwise (fun p q => p.2 < q.1) (strataFrom a fuel (mkStrat a f)) := by
  intro fuel
  induction fuel with
  | zero =>
    intro f
    simp [strataFrom]
  | succ n ih =>
    intro f
    by_cases hf : f ≤ a.maxSize
    · rw [strataFrom_cons _ _ _ hf, stratumStep_mkStrat _ _ hss]
      refine List.Pairwise.cons ?_ (ih _)
      intro q hq
      obtain ⟨k, hk, hk1, hk2⟩ := strataFrom_mem a hss n _ q hq
      simp only [mkStrat_snd]
      omega
    · rw [strataFrom_nil a _ _ (by simp only [mkStrat_fst]; omega)]
      exact List.Pairwise.nil

/-- Index formula: the i-th produced stratum starts i widths after f. -/
theorem strataFrom_get? (a : Args) (hss : 1 ≤ a.stratumSize) :
    ∀ (fuel : Nat) (f : Int) (i : Nat),
      i < (strataFrom a fuel (mkStrat a f)).length →
      (strataFrom a fuel (mkStrat a f)).get? i = some (mkStrat a (f + i * a.stratumSize)) ∧
      f + i * a.stratumSize ≤ a.maxSize := by
  intro fuel
  induction fuel with
  | zero =>
    intro f i h
    simp [strataFrom] at h
  | succ n ih =>
    intro f i h
    by_cases hf : f ≤ a.maxSize
    · rw [strataFrom_cons _ _ _ hf, stratumStep_mkStrat _ _ hss] at h ⊢
      cases i with
      | zero =>
        constructor
        · rw [List.get?_cons_zero]
          simp
        · simpa using hf
      | succ j =>
        have h2 : j < (strataFrom a n (mkStrat a (f + a.stratumSize))).length := by
          simpa using h
        obtain ⟨hg, hb⟩ := ih (f + a.stratumSize) j h2
        have hc : ((j : Int) + 1) * a.stratumSize =
            (j : Int) * a.stratumSize + a.stratumSize := by
          ring
        constructor
        · rw [List.get?_cons_succ, hg]
          congr 2
          push_cast
          omega
        · push_cast
          omega
    · rw [strataFrom_nil a _ _ (by simp only [mkStrat_fst]; omega)] at h
      simp at h

/-- Lower bound on the length: while f + i widths stays in range, the i-th
stratum exists. -/
theorem strataFrom_length_lb (a : Args) (hss : 1 ≤ a.stratumSize) :
    ∀ (fuel : Nat) (f : Int), (a.maxSize + 1 - f).toNat ≤ fuel →
      ∀ i : Nat, f + i * a.stratumSize ≤ a.maxSize →
        i < (strataFrom a fuel (mkStrat a f)).length := by
  intro fuel
  induction fuel with
  | zero =>
    intro f hfuel i hi
    exfalso
    have hnn : 0 ≤ (i : Int) * a.stratumSize :=
      mul_nonneg (Int.natCast_nonneg i) (by omega)
    omega
  | succ n ih =>
    intro f hfuel i hi
    have hnn : 0 ≤ (i : Int) * a.stratumSize :=
      mul_nonneg (Int.natCast_nonneg i) (by omega)
    have hf : f ≤ a.maxSize := by omega
    rw [strataFrom_cons _ _ _ hf, stratumStep_mkStrat _ _ hss]
    cases i with
    | zero => simp
    | succ j =>
      have hc : ((j : Int) + 1) * a.stratumSize = (j : Int) * a.stratumSize + a.stratumSize := by
        ring
      have hj : f + a.stratumSize + (j : Int) * a.stratumSize ≤ a.maxSize := by
        push_cast at hi
        omega
      have := ih (f + a.stratumSize) (by omega) j hj
      simpa using this

-- C3: the planner partitions [min_size, max_size] ---------------------------

/-- Conjunction of the planner properties claimed for the stratum sequence:
the sequence is finite (more fuel changes nothing, i.e. the loop reached its
exit condition), contiguous, non-overlapping, covers exactly
[min_size, max_size], every stratum is a nonempty range of width
stratum_size except possibly the last, and the last ends exactly at
max_size. -/
def plannerSpec (a : Args) : Prop :=
  (∀ k : Nat, strataFrom a (defaultFuel a + k) (stratInit a) = strata a) ∧
  List.Chain' (fun p q => q.1 = p.2 + 1) (strata a) ∧
  List.Pairwise (fun p q => p.2 < q.1) (strata a) ∧
  (∀ x : Int, (a.minSize ≤ x ∧ x ≤ a.maxSize) ↔
    ∃ p ∈ strata a, p.1 ≤ x ∧ x ≤ p.2) ∧
  (∀ i : Nat, ∀ p ∈ (strata a).get? i,
    p.1 ≤ p.2 ∧
    (i + 1 < (strata a).length → p.2 = p.1 + a.stratumSize - 1) ∧
    (i + 1 = (strata a).length → p.2 = a.maxSize)) ∧
  0 < (strata a).length

/-- C3: for all valid arguments, the stratum sequence obtained by
initializing (strat_first, strat_last) and repeatedly advancing until
strat_first exceeds max_size is finite, contiguous and non-overlapping, its
union is exactly [min_size, max_size], and every stratum has width
stratum_size except possibly the last, which is clipped to end at
max_size. -/
theorem stratum_planner_partition (a : Args) (h1 : 1 ≤ a.minSize)
    (h2 : a.minSize < a.maxSize) (h3 : 1 ≤ a.stratumSize) : plannerSpec a := by
  have hfuel : (a.maxSize + 1 - a.minSize).toNat ≤ defaultFuel a := by
    unfold defaultFuel
    omega
  refine ⟨?_, ?_, ?_, ?_, ?_, ?_⟩
  · intro k
    unfold strata
    rw [stratInit_eq_mkStrat]
    exact strataFrom_fuel_congr a h3 (defaultFuel a + k) (defaultFuel a) a.minSize
      (by omega) hfuel
  · unfold strata
    rw [stratInit_eq_mkStrat]
    exact strataFrom_chain a h3 (defaultFuel a) a.minSize
  · unfold strata
    rw [stratInit_eq_mkStrat]
    exact strataFrom_pairwise a h3 (defaultFuel a) a.minSize
  · unfold strata
    rw [stratInit_eq_mkStrat]
    exact strataFrom_cover a h3 (defaultFuel a) a.minSize hfuel
  · intro i p hp
    have hsome : (strata a).get? i = some p := hp
    have hlen : i < (strata a).length := by
      by_contra hcon
      rw [List.get?_eq_none.mpr (by omega)] at hsome
      exact Option.noConfusion hsome
    have hget := strataFrom_get? a h3 (defaultFuel a) a.minSize i
      (by rw [← stratInit_eq_mkStrat]; exact hlen)
    rw [← stratInit_eq_mkStrat] at hget
    obtain ⟨hg, hb⟩ := hget
    have hpv : p = mkStrat a (a.minSize + i * a.stratumSize) := by
      have hg2 : (strata a).get? i = some (mkStrat a (a.minSize + i * a.stratumSize)) := hg
      rw [hsome] at hg2
      exact Option.some.inj hg2
    refine ⟨?_, ?_, ?_⟩
    · rw [hpv]
      simp only [mkStrat_fst, mkStrat_snd]
      omega
    · intro hlt
      have hb2 := (strataFrom_get? a h3 (defaultFuel a) a.minSize (i + 1)
        (by rw [← stratInit_eq_mkStrat]; exact hlt)).2
      have hc : ((i : Int) + 1) * a.stratumSize =
          (i : Int) * a.stratumSize + a.stratumSize := by
        ring
      push_cast at hb2
      rw [hpv]
      simp only [mkStrat_fst, mkStrat_snd]
      omega
    · intro hlast
      have hout : ¬ (a.minSize + ((i : Int) + 1) * a.stratumSize ≤ a.maxSize) := by
        intro hin
        have hlb := strataFrom_length_lb a h3 (defaultFuel a) a.minSize hfuel (i + 1)
          (by push_cast; push_cast at hin; omega)
        have hlb2 : i + 1 < (strata a).length := by
          rw [strata, stratInit_eq_mkStrat]
          exact hlb
        omega
      have hc : ((i : Int) + 1) * a.stratumSize =
          (i : Int) * a.stratumSize + a.stratumSize := by
        ring
      rw [hpv]
      simp only [mkStrat_snd]
      omega
  · have := strataFrom_length_lb a h3 (defaultFuel a) a.minSize hfuel 0
      (by simp; omega)
    rw [← stratInit_eq_mkStrat] at this
    exact this

/-- Arguments used by the planner witnesses: range [1, 5] with width 2,
giving strata (1,2), (3,4), (5,5). -/
def cfgA : Args :=
  { minSize := 1, maxSize := 5, stratumSize := 2
  , throttle := true, githubToken := "t" }

/-- Witness for C3 at cfgA. -/
theorem stratum_planner_partition_witness :
    (1 ≤ cfgA.minSize ∧ cfgA.minSize < cfgA.maxSize ∧ 1 ≤ cfgA.stratumSize) ∧
    plannerSpec cfgA :=
  ⟨by decide, stratum_planner_partition cfgA (by decide) (by decide) (by decide)⟩

-- Progress Ledger replay and resume (lines 325-343) -------------------------

/-- In-memory sampling state relevant to resume: the stratum cursor
(lines 76-77), the per-stratum counters (lines 82-83) and the cumulative
sample counter (line 90, zeroed at line 318). -/
structure Session where
  stratFirst : Int
  stratLast : Int
  pop : Int
  sam : Int
  totalSam : Int
deriving DecidableEq

/-- State right before the statistics file is replayed. -/
def initialSession (a : Args) : Session :=
  { stratFirst := a.minSize
  , stratLast := min (a.minSize + a.stratumSize - 1) a.maxSize
  , pop := -1, sam := -1, totalSam := 0 }

/-- One data row of the statistics CSV, as written at line 410. -/
structure LedgerRow where
  first : Int
  last : Int
  pop : Int
  sam : Int
deriving DecidableEq

/-- Body of the replay for loop (lines 330-338). -/
def replayRow (s : Session) (row : LedgerRow) : Session :=
  { stratFirst := row.first, stratLast := row.last, pop := row.pop
  , sam := row.sam, totalSam := s.totalSam + row.sam }

/-- Resume logic (lines 325-343): replay every ledger row in order; then,
when at least one row set pop (lines 339-343), advance the stratum cursor
one step past the last replayed stratum and reset pop and sam to unknown. -/
def resumeReplay (a : Args) (s0 : Session) (rows : List LedgerRow) : Session :=
  if (rows.foldl replayRow s0).pop > -1 then
    { stratFirst := (rows.foldl replayRow s0).stratFirst + a.stratumSize
    , stratLast := min ((rows.foldl replayRow s0).stratLast + a.stratumSize) a.maxSize
    , pop := -1, sam := -1
    , totalSam := (rows.foldl replayRow s0).totalSam }
  else rows.foldl replayRow s0

theorem foldl_replayRow_append (s0 : Session) (rows : List LedgerRow)
    (row : LedgerRow) :
    (rows ++ [row]).foldl replayRow s0 = replayRow (rows.foldl replayRow s0) row := by
  rw [List.foldl_append]
  rfl

/-- Arguments used by the resume counterexample and witnesses: range
[1, 10] with stratum width 2. -/
def cfgB : Args :=
  { minSize := 1, maxSize := 10, stratumSize := 2
  , throttle := true, githubToken := "t" }

/-- Ledger row a prior run with cfgB writes for its first stratum. -/
def rowB : LedgerRow := { first := 1, last := 2, pop := 0, sam := 0 }

/-- Counterexample to C2: under cfgB a prior run that completed exactly its
first stratum (1, 2) leaves the single ledger row rowB; on resume the first
unfinished stratum's lower bound is 3 (last completed first + stratum_size,
the contiguous successor), not last completed last + stratum_size = 4 as
the claim states. -/
theorem resume_lower_bound_counterexample :
    (strata cfgB).take 1 = [(1, 2)] ∧
    (resumeReplay cfgB (initialSession cfgB) [rowB]).stratFirst = 3 ∧
    rowB.last + cfgB.stratumSize = 4 ∧
    (3 : Int) ≠ 4 := by
  decide

/-- Replaying a nonempty ledger whose last row has a known population
advances the cursor one step past the last row's stratum. -/
theorem resumeReplay_append_fields (a : Args) (rows : List LedgerRow)
    (lastRow : LedgerRow) (hpop : 0 ≤ lastRow.pop) :
    (resumeReplay a (initialSession a) (rows ++ [lastRow])).stratFirst =
      lastRow.first + a.stratumSize ∧
    (resumeReplay a (initialSession a) (rows ++ [lastRow])).stratLast =
      min (lastRow.last + a.stratumSize) a.maxSize := by
  have hfold := foldl_replayRow_append (initialSession a) rows lastRow
  have hpos : ((rows ++ [lastRow]).foldl replayRow (initialSession a)).pop > -1 := by
    rw [hfold]
    show lastRow.pop > -1
    omega
  constructor
  · unfold resumeReplay
    rw [if_pos hpos, hfold]
    rfl
  · unfold resumeReplay
    rw [if_pos hpos, hfold]
    rfl

/-- A ledger row that records the j-th stratum of a run has the bounds the
planner computes for that stratum. -/
theorem ledger_row_bounds (a : Args) (h3 : 1 ≤ a.stratumSize) (j : Nat)
    (hj : j < (strata a).length) (lastRow : LedgerRow)
    (hrow : (strata a).get? j = some (lastRow.first, lastRow.last)) :
    lastRow.first = a.minSize + j * a.stratumSize ∧
    lastRow.last =
      min (a.minSize + j * a.stratumSize + a.stratumSize - 1) a.maxSize := by
  have hget := strataFrom_get? a h3 (defaultFuel a) a.minSize j
    (by rw [← stratInit_eq_mkStrat]; exact hj)
  have hg1 : (strata a).get? j = some (mkStrat a (a.minSize + j * a.stratumSize)) :=
    hget.1
  rw [hrow] at hg1
  have hpair := Option.some.inj hg1
  refine ⟨congrArg Prod.fst hpair, ?_⟩
  have := congrArg Prod.snd hpair
  simpa using this

/-- C2 (amended): after replaying a ledger whose last row records stratum
number n of the run (n at least 1), the first unfinished stratum's lower
bound equals the last completed stratum's first plus stratum_size, its
upper bound is min(last completed last + stratum_size, max_size), and
whenever strata remain the lower bound equals the last completed stratum's
last + 1 (the contiguous successor). -/
theorem resume_lower_bound_amended (a : Args) (h1 : 1 ≤ a.minSize)
    (h2 : a.minSize < a.maxSize) (h3 : 1 ≤ a.stratumSize)
    (rows : List LedgerRow) (lastRow : LedgerRow) (hpop : 0 ≤ lastRow.pop)
    (n : Nat) (hn : 1 ≤ n) (hlen : n ≤ (strata a).length)
    (hrow : (strata a).get? (n - 1) = some (lastRow.first, lastRow.last)) :
    (resumeReplay a (initialSession a) (rows ++ [lastRow])).stratFirst =
      lastRow.first + a.stratumSize ∧
    (resumeReplay a (initialSession a) (rows ++ [lastRow])).stratLast =
      min (lastRow.last + a.stratumSize) a.maxSize ∧
    (n < (strata a).length →
      (resumeReplay a (initialSession a) (rows ++ [lastRow])).stratFirst =
        lastRow.last + 1) := by
  obtain ⟨hfirst, hlast⟩ := resumeReplay_append_fields a rows lastRow hpop
  refine ⟨hfirst, hlast, ?_⟩
  intro hmore
  obtain ⟨j, rfl⟩ : ∃ j, n = j + 1 := ⟨n - 1, by omega⟩
  simp only [Nat.add_sub_cancel] at hrow
  have hj : j < (strata a).length := by omega
  obtain ⟨hpf, hpl⟩ := ledger_row_bounds a h3 j hj lastRow hrow
  have hnext := (strataFrom_get? a h3 (defaultFuel a) a.minSize (j + 1)
    (by rw [← stratInit_eq_mkStrat]; exact hmore)).2
  have hc : ((j : Int) + 1) * a.stratumSize =
      (j : Int) * a.stratumSize + a.stratumSize := by
    ring
  push_cast at hnext
  rw [hfirst, hpf, hpl]
  omega

/-- Witness for C2's amended theorem: cfgB, one completed stratum. -/
theorem resume_lower_bound_amended_witness :
    (resumeReplay cfgB (initialSession cfgB) ([] ++ [rowB])).stratFirst =
      rowB.first + cfgB.stratumSize ∧
    (resumeReplay cfgB (initialSession cfgB) ([] ++ [rowB])).stratLast =
      min (rowB.last + cfgB.stratumSize) cfgB.maxSize ∧
    (1 < (strata cfgB).length →
      (resumeReplay cfgB (initialSession cfgB) ([] ++ [rowB])).stratFirst =
        rowB.last + 1) :=
  resume_lower_bound_amended cfgB (by decide) (by decide) (by decide) [] rowB
    (by decide) 1 (by decide) (by decide) (by decide)

-- C4: resume is equivalent to the uninterrupted run --------------------------

/-- Dropping n strata from the produced sequence lands at the cursor n
widths further on, with n fewer units of fuel. -/
theorem strataFrom_drop (a : Args) (hss : 1 ≤ a.stratumSize) :
    ∀ (n fuel : Nat) (f : Int), n ≤ (strataFrom a fuel (mkStrat a f)).length →
      (strataFrom a fuel (mkStrat a f)).drop n =
        strataFrom a (fuel - n) (mkStrat a (f + n * a.stratumSize)) := by
  intro n
  induction n with
  | zero =>
    intro fuel f h
    simp
  | succ j ih =>
    intro fuel f h
    cases fuel with
    | zero =>
      rw [strataFrom] at h
      simp at h
    | succ m =>
      by_cases hf : f ≤ a.maxSize
      · rw [strataFrom_cons _ _ _ hf, stratumStep_mkStrat _ _ hss] at h ⊢
        simp only [List.drop_succ_cons]
        rw [ih m (f + a.stratumSize) (by simpa using h)]
        have harg : f + a.stratumSize + (j : Int) * a.stratumSize =
            f + ((j : Nat) + 1 : Nat) * a.stratumSize := by
          push_cast
          ring
        rw [Nat.succ_sub_succ]
        rw [harg]
      · rw [strataFrom_nil a _ _ (by simp only [mkStrat_fst]; omega)] at h
        simp at h

/-- C4: a run that completes n strata and restarts, replaying the ledger
(empty for n = 0, otherwise ending in the row of stratum n), iterates over
exactly the same sequence of subsequent (first, last) strata as an
uninterrupted run produces after its first n strata. -/
theorem resume_matches_uninterrupted (a : Args) (h1 : 1 ≤ a.minSize)
    (h2 : a.minSize < a.maxSize) (h3 : 1 ≤ a.stratumSize)
    (n : Nat) (hlen : n ≤ (strata a).length) (rows : List LedgerRow)
    (hshape : (n = 0 ∧ rows = []) ∨
      (1 ≤ n ∧ ∃ rows0 lastRow, rows = rows0 ++ [lastRow] ∧ 0 ≤ lastRow.pop ∧
        (strata a).get? (n - 1) = some (lastRow.first, lastRow.last))) :
    strataFrom a (defaultFuel a)
      ((resumeReplay a (initialSession a) rows).stratFirst,
       (resumeReplay a (initialSession a) rows).stratLast) = (strata a).drop n := by
  rcases hshape with ⟨rfl, rfl⟩ | ⟨hn, rows0, lastRow, rfl, hpop, hrow⟩
  · rw [List.drop_zero]
    have hres : resumeReplay a (initialSession a) [] = initialSession a := by
      unfold resumeReplay
      simp [initialSession]
    rw [hres]
    rfl
  · obtain ⟨hfirst, hlast⟩ := resumeReplay_append_fields a rows0 lastRow hpop
    obtain ⟨j, rfl⟩ : ∃ j, n = j + 1 := ⟨n - 1, by omega⟩
    simp only [Nat.add_sub_cancel] at hrow
    have hj : j < (strata a).length := by omega
    obtain ⟨hpf, hpl⟩ := ledger_row_bounds a h3 j hj lastRow hrow
    have hstate : ((resumeReplay a (initialSession a) (rows0 ++ [lastRow])).stratFirst,
        (resumeReplay a (initialSession a) (rows0 ++ [lastRow])).stratLast) =
        mkStrat a (a.minSize + j * a.stratumSize + a.stratumSize) := by
      rw [Prod.ext_iff]
      constructor
      · rw [hfirst, hpf]
        simp
      · rw [hlast, hpl]
        simp only [mkStrat_snd]
        omega
    rw [hstate]
    have hnn : 0 ≤ ((j : Int) + 1) * a.stratumSize :=
      mul_nonneg (by positivity) (by omega)
    have hone : (j : Int) + 1 ≤ ((j : Int) + 1) * a.stratumSize :=
      le_mul_of_one_le_right (by positivity) h3
    have hc : ((j : Int) + 1) * a.stratumSize =
        (j : Int) * a.stratumSize + a.stratumSize := by
      ring
    have hdrop := strataFrom_drop a h3 (j + 1) (defaultFuel a) a.minSize
      (by rw [← stratInit_eq_mkStrat]; exact hlen)
    have hdrop2 : (strata a).drop (j + 1) =
        strataFrom a (defaultFuel a - (j + 1))
          (mkStrat a (a.minSize + ((j : Nat) + 1 : Nat) * a.stratumSize)) := by
      rw [strata, stratInit_eq_mkStrat]
      exact hdrop
    rw [hdrop2]
    have harg : a.minSize + ((j : Nat) + 1 : Nat) * a.stratumSize =
        a.minSize + j * a.stratumSize + a.stratumSize := by
      push_cast
      ring
    rw [harg]
    apply strataFrom_fuel_congr a h3
    · unfold defaultFuel
      omega
    · unfold defaultFuel
      omega

/-- Witness for C4: cfgB after one completed stratum; the resumed cursor
generates exactly the strata after the first. -/
theorem resume_matches_uninterrupted_witness :
    strataFrom cfgB (defaultFuel cfgB)
      ((resumeReplay cfgB (initialSession cfgB) ([] ++ [rowB])).stratFirst,
       (resumeReplay cfgB (initialSession cfgB) ([] ++ [rowB])).stratLast) =
      (strata cfgB).drop 1 :=
  resume_matches_uninterrupted cfgB (by decide) (by decide) (by decide) 1 (by decide)
    ([] ++ [rowB]) (Or.inr ⟨by decide, [], rowB, rfl, by decide, by decide⟩)

end GithubSearcher
